import Mathlib

/-!
# LF OS kernel: ELF64 image records and loader

A shallow embedding of `src/kernel/elf.h` and `src/kernel/tests/lfostest.h`.

* The four packed records of `elf.h` are embedded as field tables, with the
  packed and the naturally aligned layout computed from them.
* `ELF_MAGIC` and the byte-level reading of the `ident_magic` field.
* The `TEST_FUNCTIONS` X-macro list and the `TestUtils` record generated from it.
* `load_elf` and `elf_section_by_name` are only declared in `elf.h`; their
  behaviour is modelled from the specification's component design.
-/

set_option autoImplicit false
set_option maxRecDepth 100000

namespace Elf

/-! ## Record layouts (`elf.h`, `lfostest.h`) -/

/-- Scalar C types occurring in the records of `elf.h`. -/
inductive CType where
  | uint8_t
  | uint16_t
  | uint32_t
  | uint64_t
  | ptr_t
  deriving DecidableEq

/-- Width in bytes of a scalar type; `ptr_t` is `typedef uint64_t ptr_t` (`lfostest.h:10`). -/
def CType.width : CType → Nat
  | .uint8_t => 1
  | .uint16_t => 2
  | .uint32_t => 4
  | .uint64_t => 8
  | .ptr_t => 8

/-- One member of a record: its name, scalar type and element count
(`1` for a scalar member, `n` for an array member `t x[n]`). -/
structure Field where
  name : String
  ty : CType
  count : Nat
  deriving DecidableEq

/-- Scalar member. -/
def fld (name : String) (ty : CType) : Field := ⟨name, ty, 1⟩

/-- Array member. -/
def arr (name : String) (ty : CType) (n : Nat) : Field := ⟨name, ty, n⟩

/-- Bytes occupied by a member. -/
def Field.size (f : Field) : Nat := f.ty.width * f.count

/-- Offsets of the members of a packed record starting at offset `off`:
each member starts where the previous one ends. -/
def packedOffsetsFrom : Nat → List Field → List Nat
  | _, [] => []
  | off, f :: fs => off :: packedOffsetsFrom (off + f.size) fs

/-- End offset of a packed record starting at `off`. -/
def packedEndFrom : Nat → List Field → Nat
  | off, [] => off
  | off, f :: fs => packedEndFrom (off + f.size) fs

/-- Member offsets under `__attribute__((packed))`. -/
def packedOffsets (fs : List Field) : List Nat := packedOffsetsFrom 0 fs

/-- Value of `sizeof` under `__attribute__((packed))`. -/
def packedSize (fs : List Field) : Nat := packedEndFrom 0 fs

/-- Round `n` up to the next multiple of `a`. -/
def roundUp (a n : Nat) : Nat := (n + a - 1) / a * a

/-- Offsets of the members under natural alignment: each member is placed at
the next multiple of its scalar width. -/
def naturalOffsetsFrom : Nat → List Field → List Nat
  | _, [] => []
  | off, f :: fs =>
    roundUp f.ty.width off :: naturalOffsetsFrom (roundUp f.ty.width off + f.size) fs

/-- End offset (before tail padding) under natural alignment. -/
def naturalEndFrom : Nat → List Field → Nat
  | off, [] => off
  | off, f :: fs => naturalEndFrom (roundUp f.ty.width off + f.size) fs

/-- Alignment of a record: the largest scalar width among its members. -/
def recordAlign (fs : List Field) : Nat := (fs.map fun f => f.ty.width).foldr max 1

/-- Member offsets without the packed attribute. -/
def naturalOffsets (fs : List Field) : List Nat := naturalOffsetsFrom 0 fs

/-- Value of `sizeof` without the packed attribute (tail padding included). -/
def naturalSize (fs : List Field) : Nat := roundUp (recordAlign fs) (naturalEndFrom 0 fs)

/-- Members of `struct elf_file_header` (`elf.h:10-39`). -/
def elf_file_header : List Field :=
  [ fld "ident_magic" .uint32_t,
    fld "ident_arch" .uint8_t,
    fld "ident_byteOrder" .uint8_t,
    fld "ident_version" .uint8_t,
    fld "ident_abi" .uint8_t,
    fld "ident_abi_version" .uint8_t,
    arr "_ident_padding" .uint8_t 7,
    fld "type" .uint16_t,
    fld "machine" .uint16_t,
    fld "version" .uint32_t,
    fld "entrypoint" .ptr_t,
    fld "programHeaderOffset" .ptr_t,
    fld "sectionHeaderOffset" .ptr_t,
    fld "flags" .uint32_t,
    fld "headerSize" .uint16_t,
    fld "programHeaderEntrySize" .uint16_t,
    fld "programHeaderCount" .uint16_t,
    fld "sectionHeaderEntrySize" .uint16_t,
    fld "sectionHeaderCount" .uint16_t,
    fld "sectionHeaderSectionNameIndex" .uint16_t ]

/-- Members of `struct elf_program_header` (`elf.h:43-54`). -/
def elf_program_header : List Field :=
  [ fld "type" .uint32_t,
    fld "flags" .uint32_t,
    fld "offset" .uint64_t,
    fld "vaddr" .uint64_t,
    fld "paddr" .uint64_t,
    fld "fileLength" .uint64_t,
    fld "memLength" .uint64_t,
    fld "align" .uint64_t ]

/-- Members of `struct elf_section_header` (`elf.h:58-69`). -/
def elf_section_header : List Field :=
  [ fld "name" .uint32_t,
    fld "type" .uint32_t,
    fld "flags" .uint64_t,
    fld "addr" .ptr_t,
    fld "offset" .uint64_t,
    fld "size" .uint64_t,
    fld "link" .uint32_t,
    fld "info" .uint32_t,
    fld "addralign" .uint64_t,
    fld "entrySize" .uint64_t ]

/-- Members of `struct elf_symbol` (`elf.h:73-80`). -/
def elf_symbol : List Field :=
  [ fld "name" .uint32_t,
    fld "info" .uint8_t,
    fld "other" .uint8_t,
    fld "sectionHeader" .uint16_t,
    fld "addr" .uint64_t,
    fld "size" .uint64_t ]

/-- Names of the members, in declaration order. -/
def fieldNames (fs : List Field) : List String := fs.map Field.name

/-- Sizes in bytes of the members, in declaration order. -/
def fieldSizes (fs : List Field) : List Nat := fs.map Field.size

/-- Offset of the member called `n` in the packed record, if there is one. -/
def offsetOf (fs : List Field) (n : String) : Option Nat :=
  ((fieldNames fs).zip (packedOffsets fs)).lookup n

/-- Every member starts at a multiple of its scalar width. -/
def selfAligned (fs : List Field) : Bool :=
  (fs.zip (packedOffsets fs)).all fun p => p.2 % p.1.ty.width == 0

/-! ## The `TestUtils` callback table (`lfostest.h`) -/

/-- Entries of the `TEST_FUNCTIONS` X-macro list (`lfostest.h:23-43`), as the
argument pairs `(type, name)` of each `testFunctionT(type, name)`. -/
def TEST_FUNCTIONS : List (String × String) :=
  [ ("size_t", "eq"), ("size_t", "ne"), ("size_t", "lt"), ("size_t", "gt"),
    ("int", "eq"), ("int", "ne"), ("int", "lt"), ("int", "gt"),
    ("uint8_t", "eq"), ("uint8_t", "ne"), ("uint8_t", "lt"), ("uint8_t", "gt"),
    ("uint64_t", "eq"), ("uint64_t", "ne"), ("uint64_t", "lt"), ("uint64_t", "gt"),
    ("ptr_t", "eq"), ("ptr_t", "ne"),
    ("bool", "eq"), ("bool", "ne") ]

/-- Member name produced by `name ## _ ## type` (`lfostest.h:46`). -/
def testFunctionT (p : String × String) : String := p.2 ++ "_" ++ p.1

/-- Member names of the `TestUtils` record: one per entry of `TEST_FUNCTIONS`. -/
def TestUtils : List String := TEST_FUNCTIONS.map testFunctionT

/-- Types for which `TEST_FUNCTIONS` lists the comparison `cmp`. -/
def typesWith (cmp : String) : List String :=
  (TEST_FUNCTIONS.filter fun p => p.2 == cmp).map Prod.fst

/-! ## The ELF signature -/

/-- The macro `ELF_MAGIC` (`elf.h:7`). -/
def ELF_MAGIC : Nat := 0x464c457f

/-- Value of a byte sequence read least significant byte first. -/
def le_value : List Nat → Nat
  | [] => 0
  | b :: bs => b + 256 * le_value bs

/-- Value of a byte sequence read most significant byte first. -/
def be_value (bs : List Nat) : Nat := le_value bs.reverse

/-! ## Byte accessor (design §4.1) -/

/-- Byte order in which a multi-byte field is interpreted. -/
inductive ByteOrder where
  | little
  | big
  deriving DecidableEq

/-- Failure of the byte accessor. -/
inductive AccessError where
  | OutOfBounds
  deriving DecidableEq

/-- The image buffer: a sequence of bytes. -/
abbrev Buffer := List Nat

/-- Value of a byte sequence in the given byte order. -/
def decode : ByteOrder → List Nat → Nat
  | .little, bs => le_value bs
  | .big, bs => be_value bs

/-- Modelled from the spec: the Byte-Accessor's raw read (no accessor is
declared in `elf.h`). The `w` bytes at `off`, or `OutOfBounds` when `off + w`
exceeds the buffer length. -/
def read_bytes (buf : Buffer) (off w : Nat) : Except AccessError (List Nat) :=
  if off + w ≤ buf.length then .ok ((buf.drop off).take w) else .error .OutOfBounds

/-- Modelled from the spec: the Byte-Accessor's `read_u8/u16/u32/u64` (no
accessor is declared in `elf.h`), for width `w` bytes and byte order `ord`. -/
def read_uint (w : Nat) (ord : ByteOrder) (buf : Buffer) (off : Nat) : Except AccessError Nat :=
  match read_bytes buf off w with
  | .ok bs => .ok (decode ord bs)
  | .error e => .error e

/-! ## Loader errors and target constants (design §4.2, §7) -/

/-- Error taxonomy of the loader (design §7). -/
inductive LoadError where
  | BadMagic
  | UnsupportedArch
  | UnsupportedByteOrder
  | UnsupportedMachine
  | TruncatedImage
  | InvalidSegment
  | OverlappingSegments
  | NoStackSpace
  | InvalidEntrypoint
  | MappingFailed
  deriving DecidableEq

/-- Access permissions of a mapping. -/
structure Perms where
  read : Bool
  write : Bool
  exec : Bool
  deriving DecidableEq

/-- A range `[lo, hi)` mapped by the current load, with its permissions. -/
structure MappedRange where
  lo : Nat
  hi : Nat
  perms : Perms
  deriving DecidableEq

/-- Modelled from the spec: the constants the design leaves to the kernel and
that `elf.h` does not define: the expected architecture, byte-order and machine
identifiers, how the image's declared byte order is obtained, the identifier of
the loadable segment type, the permission flag masks, the page size, the stack
size and the stack placement policy. -/
structure Target where
  expectedArch : Nat
  expectedByteOrder : Nat
  expectedMachine : Nat
  declaredOrder : Buffer → ByteOrder
  PT_LOAD : Nat
  PF_X : Nat
  PF_W : Nat
  PF_R : Nat
  pageSize : Nat
  pageSize_pos : 0 < pageSize
  stackSize : Nat
  placeStack : List MappedRange → Option Nat

/-- Modelled from the spec: how the higher components surface an accessor
failure (§4.2, §7): as `TruncatedImage`. -/
def truncated {α : Type} : Except AccessError α → Except LoadError α
  | .ok a => .ok a
  | .error _ => .error .TruncatedImage

/-- Modelled from the spec: a field read through the Byte-Accessor (§4.1), `w`
bytes at `off` in the image's declared byte order. -/
def field (cfg : Target) (buf : Buffer) (off w : Nat) : Except LoadError Nat :=
  truncated (read_uint w (cfg.declaredOrder buf) buf off)

/-- Parsed file header: the scalar members of `struct elf_file_header`. -/
structure FileHeader where
  ident_magic : Nat
  ident_arch : Nat
  ident_byteOrder : Nat
  ident_version : Nat
  ident_abi : Nat
  ident_abi_version : Nat
  type : Nat
  machine : Nat
  version : Nat
  entrypoint : Nat
  programHeaderOffset : Nat
  sectionHeaderOffset : Nat
  flags : Nat
  headerSize : Nat
  programHeaderEntrySize : Nat
  programHeaderCount : Nat
  sectionHeaderEntrySize : Nat
  sectionHeaderCount : Nat
  sectionHeaderSectionNameIndex : Nat
  deriving DecidableEq

/-- Parsed program header: the members of `struct elf_program_header`. -/
structure ProgramHeader where
  type : Nat
  flags : Nat
  offset : Nat
  vaddr : Nat
  paddr : Nat
  fileLength : Nat
  memLength : Nat
  align : Nat
  deriving DecidableEq

/-- Modelled from the spec: the Header Validator (§4.2; `elf.h` has no
validator). Checks, in order, the magic, the architecture, the byte order, the
machine and that both header tables end inside the buffer; the members are read
at the offsets of the packed `elf_file_header`. The magic is the fixed 4-byte
signature (§3, §6): `ident_magic` is compared with `ELF_MAGIC` as the
`uint32_t` of `elf.h:11`, least significant byte first, whatever byte order the
buffer declares; the members after the byte-order check are read in the
declared byte order. -/
def validate_header (cfg : Target) (buf : Buffer) : Except LoadError FileHeader := do
  let magic ← truncated (read_uint 4 .little buf 0)
  if magic ≠ ELF_MAGIC then throw .BadMagic
  let arch ← field cfg buf 4 1
  if arch ≠ cfg.expectedArch then throw .UnsupportedArch
  let byteOrder ← field cfg buf 5 1
  if byteOrder ≠ cfg.expectedByteOrder then throw .UnsupportedByteOrder
  let identVersion ← field cfg buf 6 1
  let abi ← field cfg buf 7 1
  let abiVersion ← field cfg buf 8 1
  let type ← field cfg buf 16 2
  let machine ← field cfg buf 18 2
  if machine ≠ cfg.expectedMachine then throw .UnsupportedMachine
  let version ← field cfg buf 20 4
  let entrypoint ← field cfg buf 24 8
  let phoff ← field cfg buf 32 8
  let shoff ← field cfg buf 40 8
  let flags ← field cfg buf 48 4
  let headerSize ← field cfg buf 52 2
  let phentsize ← field cfg buf 54 2
  let phnum ← field cfg buf 56 2
  let shentsize ← field cfg buf 58 2
  let shnum ← field cfg buf 60 2
  let shstrndx ← field cfg buf 62 2
  if buf.length < phoff + phnum * phentsize then throw .TruncatedImage
  if buf.length < shoff + shnum * shentsize then throw .TruncatedImage
  return { ident_magic := magic, ident_arch := arch, ident_byteOrder := byteOrder,
           ident_version := identVersion, ident_abi := abi, ident_abi_version := abiVersion,
           type := type, machine := machine, version := version, entrypoint := entrypoint,
           programHeaderOffset := phoff, sectionHeaderOffset := shoff, flags := flags,
           headerSize := headerSize, programHeaderEntrySize := phentsize,
           programHeaderCount := phnum, sectionHeaderEntrySize := shentsize,
           sectionHeaderCount := shnum, sectionHeaderSectionNameIndex := shstrndx }

/-- Modelled from the spec: entry `i` of the program-header table, read at
`programHeaderOffset + i * programHeaderEntrySize` (§4.3), members at the
offsets of the packed `elf_program_header`. -/
def read_program_header (cfg : Target) (buf : Buffer) (hdr : FileHeader) (i : Nat) :
    Except LoadError ProgramHeader := do
  let base := hdr.programHeaderOffset + i * hdr.programHeaderEntrySize
  let type ← field cfg buf base 4
  let flags ← field cfg buf (base + 4) 4
  let offset ← field cfg buf (base + 8) 8
  let vaddr ← field cfg buf (base + 16) 8
  let paddr ← field cfg buf (base + 24) 8
  let fileLength ← field cfg buf (base + 32) 8
  let memLength ← field cfg buf (base + 40) 8
  let align ← field cfg buf (base + 48) 8
  return { type := type, flags := flags, offset := offset, vaddr := vaddr, paddr := paddr,
           fileLength := fileLength, memLength := memLength, align := align }

/-! ## Section resolver (design §4.4) -/

/-- One mapping of an address space: the range `[lo, hi)`, its permissions
and the bytes it holds. -/
structure Mapping where
  lo : Nat
  hi : Nat
  perms : Perms
  data : List Nat
  deriving DecidableEq

/-- Modelled from the spec: the address-space context (`vm_table_t` of `vm.h`,
which is not among the sources), as the list of its mappings, most recent first. -/
structure AddressSpace where
  mappings : List Mapping
  deriving DecidableEq

/-- Failure of the mapping interface. -/
inductive MapError where
  | Overlap
  | NotMapped
  deriving DecidableEq

/-- The ranges `[a, b)` and `[c, d)` have a common address. -/
def intersects (a b c d : Nat) : Bool := decide (max a c < min b d)

/-- Modelled from the spec: store of one byte into an address space (`vm.h` is
not among the sources); the most recent mapping containing the address takes it. -/
def writeByte : List Mapping → Nat → Nat → List Mapping
  | [], _, _ => []
  | m :: rest, a, b =>
    if m.lo ≤ a ∧ a < m.hi then { m with data := m.data.set (a - m.lo) b } :: rest
    else m :: writeByte rest a b

/-- Modelled from the spec: store of a byte sequence at consecutive addresses
(`vm.h` is not among the sources). -/
def writeBytes : List Mapping → Nat → List Nat → List Mapping
  | ms, _, [] => ms
  | ms, a, b :: bs => writeBytes (writeByte ms a b) (a + 1) bs

/-- Modelled from the spec: removal of the most recent mapping of exactly the
range `[lo, hi)` (`vm.h` is not among the sources). -/
def removeRange : List Mapping → Nat → Nat → Option (List Mapping)
  | [], _, _ => none
  | m :: rest, lo, hi =>
    if m.lo = lo ∧ m.hi = hi then some rest
    else (removeRange rest lo hi).map fun r => m :: r

/-- Modelled from the spec: `map(context, vaddr_range, permissions)` of the
consumed interface (`vm.h` is not among the sources). Fails when the range
meets an existing mapping; otherwise adds a zero-filled mapping. -/
def AddressSpace.map (ctx : AddressSpace) (lo hi : Nat) (perms : Perms) :
    Except MapError AddressSpace :=
  if ctx.mappings.any (fun m => intersects m.lo m.hi lo hi) then .error .Overlap
  else .ok ⟨⟨lo, hi, perms, List.replicate (hi - lo) 0⟩ :: ctx.mappings⟩

/-- Modelled from the spec: `unmap(context, vaddr_range)` of the consumed
interface (`vm.h` is not among the sources). -/
def AddressSpace.unmap (ctx : AddressSpace) (lo hi : Nat) : Except MapError AddressSpace :=
  match removeRange ctx.mappings lo hi with
  | some ms => .ok ⟨ms⟩
  | none => .error .NotMapped

/-- Modelled from the spec: `write_bytes(context, vaddr, bytes)` of the
consumed interface (`vm.h` is not among the sources). -/
def AddressSpace.write_bytes (ctx : AddressSpace) (vaddr : Nat) (bytes : List Nat) :
    AddressSpace :=
  ⟨writeBytes ctx.mappings vaddr bytes⟩

/-- Modelled from the spec: `zero_bytes(context, vaddr, length)` of the
consumed interface (`vm.h` is not among the sources). -/
def AddressSpace.zero_bytes (ctx : AddressSpace) (vaddr len : Nat) : AddressSpace :=
  ⟨writeBytes ctx.mappings vaddr (List.replicate len 0)⟩

/-! ## Program-header mapper, stack placement and orchestrator (design §4.3, §4.5, §4.6) -/

/-- A call made through the consumed interface; `ok` tells whether it succeeded. -/
inductive Call where
  | map (lo hi : Nat) (perms : Perms) (ok : Bool)
  | unmap (lo hi : Nat) (ok : Bool)
  | write_bytes (vaddr : Nat) (bytes : List Nat)
  | zero_bytes (vaddr len : Nat)
  deriving DecidableEq

/-- State of one load: the address-space context, the record of the ranges
mapped by this load (most recent first) and the calls made so far (most recent
first). -/
structure LoadState where
  ctx : AddressSpace
  mapped : List MappedRange
  calls : List Call
  deriving DecidableEq

/-- Result of a phase of the load: the next state, or an error with the state
reached when it occurred. -/
inductive Outcome where
  | done (st : LoadState)
  | failed (e : LoadError) (st : LoadState)
  deriving DecidableEq

/-- Start of the page containing `v`. -/
def pageDown (cfg : Target) (v : Nat) : Nat := v / cfg.pageSize * cfg.pageSize

/-- First page boundary at or after `v`. -/
def pageUp (cfg : Target) (v : Nat) : Nat := (v + cfg.pageSize - 1) / cfg.pageSize * cfg.pageSize

/-- Power-of-two test. -/
def isPow2 (n : Nat) : Bool := n != 0 && Nat.land n (n - 1) == 0

/-- Modelled from the spec: the permissions derived from a segment's
read/write/execute flags (§4.3, step 5). -/
def permsOf (cfg : Target) (flags : Nat) : Perms :=
  { read := Nat.land flags cfg.PF_R != 0,
    write := Nat.land flags cfg.PF_W != 0,
    exec := Nat.land flags cfg.PF_X != 0 }

/-- Modelled from the spec: step 4 of the Program-Header Mapper (§4.3), the
page-aligned range covering `[vaddr, vaddr + memLength)`, with the permissions
of step 5. -/
def segmentRange (cfg : Target) (ph : ProgramHeader) : MappedRange :=
  { lo := pageDown cfg ph.vaddr, hi := pageUp cfg (ph.vaddr + ph.memLength),
    perms := permsOf cfg ph.flags }

/-- The range meets one of the recorded ranges. -/
def overlapsAny (mapped : List MappedRange) (lo hi : Nat) : Bool :=
  mapped.any fun r => intersects r.lo r.hi lo hi

/-- Modelled from the spec: steps 1 to 7 of the Program-Header Mapper (§4.3)
for entry `i`. The range enters the record as soon as its mapping exists, so
that a failure of step 6 rolls it back as well; the record is first consulted
by the next entry. -/
def map_segment (cfg : Target) (buf : Buffer) (hdr : FileHeader) (i : Nat) (st : LoadState) :
    Outcome :=
  match read_program_header cfg buf hdr i with
  | .error e => .failed e st
  | .ok ph =>
    if ph.type ≠ cfg.PT_LOAD then .done st
    else if ph.memLength < ph.fileLength then .failed .InvalidSegment st
    else if ¬ (isPow2 ph.align = true ∧ ph.vaddr % ph.align = ph.offset % ph.align) then
      .failed .InvalidSegment st
    else
      let r := segmentRange cfg ph
      if overlapsAny st.mapped r.lo r.hi = true then .failed .OverlappingSegments st
      else
        match st.ctx.map r.lo r.hi r.perms with
        | .error _ => .failed .MappingFailed { st with calls := .map r.lo r.hi r.perms false :: st.calls }
        | .ok ctx1 =>
          let st1 : LoadState :=
            { ctx := ctx1, mapped := r :: st.mapped, calls := .map r.lo r.hi r.perms true :: st.calls }
          match truncated (read_bytes buf ph.offset ph.fileLength) with
          | .error e => .failed e st1
          | .ok bytes =>
            .done { st1 with
              ctx := (ctx1.write_bytes ph.vaddr bytes).zero_bytes (ph.vaddr + ph.fileLength)
                (ph.memLength - ph.fileLength),
              calls := .zero_bytes (ph.vaddr + ph.fileLength) (ph.memLength - ph.fileLength)
                :: .write_bytes ph.vaddr bytes :: st1.calls }

/-- Modelled from the spec: the iteration of the Program-Header Mapper over
`n` entries starting at entry `i`, stopping at the first failure. -/
def map_segments (cfg : Target) (buf : Buffer) (hdr : FileHeader) : Nat → Nat → LoadState → Outcome
  | 0, _, st => .done st
  | n + 1, i, st =>
    match map_segment cfg buf hdr i st with
    | .failed e st1 => .failed e st1
    | .done st1 => map_segments cfg buf hdr n (i + 1) st1

/-- Modelled from the spec: the entry-address check of §4.6, the address lies
in a recorded range with execute permission. -/
def entry_ok (entry : Nat) (mapped : List MappedRange) : Bool :=
  mapped.any fun r => r.perms.exec && decide (r.lo ≤ entry) && decide (entry < r.hi)

/-- Permissions of the stack: read and write, no execute. -/
def stackPerms : Perms := { read := true, write := true, exec := false }

/-- Modelled from the spec: the choice of the stack region of Stack Placement
(§4.5). The placement policy proposes the base of the region; it is accepted
when page-aligned and clear of every recorded range. -/
def stack_base (cfg : Target) (mapped : List MappedRange) : Except LoadError Nat :=
  match cfg.placeStack mapped with
  | none => .error .NoStackSpace
  | some base =>
    if base % cfg.pageSize ≠ 0 ∨ overlapsAny mapped base (base + cfg.stackSize) = true then
      .error .NoStackSpace
    else .ok base

/-- Modelled from the spec: the mapping request of Stack Placement (§4.5):
the stack region at `base` is mapped read/write and recorded. -/
def place_stack (cfg : Target) (base : Nat) (st : LoadState) : Outcome :=
  match st.ctx.map base (base + cfg.stackSize) stackPerms with
  | .error _ =>
    .failed .MappingFailed
      { st with calls := .map base (base + cfg.stackSize) stackPerms false :: st.calls }
  | .ok ctx1 =>
    .done { ctx := ctx1, mapped := ⟨base, base + cfg.stackSize, stackPerms⟩ :: st.mapped,
            calls := .map base (base + cfg.stackSize) stackPerms true :: st.calls }

/-- Modelled from the spec: the rollback of §4.3: every recorded range is
unmapped through the consumed interface, most recent first. -/
def rollback : List MappedRange → AddressSpace → List Call → AddressSpace × List Call
  | [], ctx, calls => (ctx, calls)
  | r :: rs, ctx, calls =>
    match ctx.unmap r.lo r.hi with
    | .ok ctx1 => rollback rs ctx1 (.unmap r.lo r.hi true :: calls)
    | .error _ => rollback rs ctx (.unmap r.lo r.hi false :: calls)

instance instDecidableEqExcept {ε α : Type} [DecidableEq ε] [DecidableEq α] :
    DecidableEq (Except ε α)
  | .ok a, .ok b => if h : a = b then isTrue (by rw [h]) else isFalse (by intro h1; cases h1; exact h rfl)
  | .error a, .error b =>
    if h : a = b then isTrue (by rw [h]) else isFalse (by intro h1; cases h1; exact h rfl)
  | .ok _, .error _ => isFalse (by intro h; cases h)
  | .error _, .ok _ => isFalse (by intro h; cases h)

/-- What a call of `load_elf` leaves behind: the entry address and the stack
pointer or the error, the address-space context, and the calls made through
the consumed interface (most recent first). -/
structure LoadResult where
  result : Except LoadError (Nat × Nat)
  ctx : AddressSpace
  calls : List Call
  deriving DecidableEq

/-- Modelled from the spec: the `Aborting` state of §4.6, roll back, then
surface the error. -/
def abort (e : LoadError) (st : LoadState) : LoadResult :=
  { result := .error e, ctx := (rollback st.mapped st.ctx st.calls).1,
    calls := (rollback st.mapped st.ctx st.calls).2 }

/-- Modelled from the spec: `load_elf` (§4.6; only declared in `elf.h:91`).
Validates the header, maps the loadable segments, checks the entry address
against the mapped executable ranges, places the stack, and returns the entry
address with the stack pointer (the upper end of the stack region); any failure
after validation rolls back the mappings of this load. -/
def load_elf (cfg : Target) (buf : Buffer) (ctx : AddressSpace) : LoadResult :=
  match validate_header cfg buf with
  | .error e => { result := .error e, ctx := ctx, calls := [] }
  | .ok hdr =>
    match map_segments cfg buf hdr hdr.programHeaderCount 0 ⟨ctx, [], []⟩ with
    | .failed e st => abort e st
    | .done st =>
      if entry_ok hdr.entrypoint st.mapped = true then
        match stack_base cfg st.mapped with
        | .error e => abort e st
        | .ok base =>
          match place_stack cfg base st with
          | .failed e st1 => abort e st1
          | .done st1 =>
            { result := .ok (hdr.entrypoint, base + cfg.stackSize), ctx := st1.ctx,
              calls := st1.calls }
      else abort .InvalidEntrypoint st

/-! ## Invariant of a load in progress -/

/-- Range and permissions of a mapping. -/
def Mapping.range (m : Mapping) : MappedRange := ⟨m.lo, m.hi, m.perms⟩

/-- State carried by an outcome. -/
def Outcome.state : Outcome → LoadState
  | .done st => st
  | .failed _ st => st

/-- Invariant of a load started in the context `base`: the context consists of
the mappings created by this load, in the order of the record, on top of
`base`; the successful mapping calls are exactly the recorded ranges; nothing
has been unmapped. -/
def LoadInv (base : AddressSpace) (st : LoadState) : Prop :=
  ∃ news : List Mapping, st.ctx.mappings = news ++ base.mappings
    ∧ news.map Mapping.range = st.mapped
    ∧ (∀ lo hi p, Call.map lo hi p true ∈ st.calls ↔ (⟨lo, hi, p⟩ : MappedRange) ∈ st.mapped)
    ∧ (∀ lo hi b, Call.unmap lo hi b ∉ st.calls)

/-- Every recorded range is the range of a loadable entry of index below `i`. -/
def SegInv (cfg : Target) (buf : Buffer) (hdr : FileHeader) (i : Nat) (st : LoadState) : Prop :=
  ∀ r ∈ st.mapped, ∃ j ph, j < i ∧ read_program_header cfg buf hdr j = .ok ph
    ∧ ph.type = cfg.PT_LOAD ∧ r = segmentRange cfg ph

/-! ## Concrete images used to exercise the definitions -/

/-- Little-endian encoding of `v` on `w` bytes. -/
def le_bytes : Nat → Nat → List Nat
  | 0, _ => []
  | w + 1, v => v % 256 :: le_bytes w (v / 256)

/-- A 64-bit little-endian target with 16-byte pages and a 16-byte stack placed
directly below the lowest mapped range, or at `0x1000` when nothing is below. -/
def demoTarget : Target :=
  { expectedArch := 2, expectedByteOrder := 1, expectedMachine := 0x3e,
    declaredOrder := fun buf => if buf.getD 5 0 = 2 then .big else .little,
    PT_LOAD := 1, PF_X := 1, PF_W := 2, PF_R := 4,
    pageSize := 16, pageSize_pos := by decide, stackSize := 16,
    placeStack := fun mapped =>
      let lowest := (mapped.map MappedRange.lo).foldr min 0x1000
      if 16 ≤ lowest then some (lowest - 16) else some 0x1000 }

/-- Encoding of a file header with the given entry address, table offsets and
table sizes, for `demoTarget`. -/
def demoHeader (magic entry phoff shoff phnum shnum shstrndx : Nat) : List Nat :=
  le_bytes 4 magic ++ [2, 1, 1, 0, 0] ++ List.replicate 7 0 ++ le_bytes 2 2 ++ le_bytes 2 0x3e
    ++ le_bytes 4 1 ++ le_bytes 8 entry ++ le_bytes 8 phoff ++ le_bytes 8 shoff ++ le_bytes 4 0
    ++ le_bytes 2 64 ++ le_bytes 2 56 ++ le_bytes 2 phnum ++ le_bytes 2 64 ++ le_bytes 2 shnum
    ++ le_bytes 2 shstrndx

/-- Encoding of a program header. -/
def demoSegment (type flags offset vaddr fileLength memLength align : Nat) : List Nat :=
  le_bytes 4 type ++ le_bytes 4 flags ++ le_bytes 8 offset ++ le_bytes 8 vaddr ++ le_bytes 8 vaddr
    ++ le_bytes 8 fileLength ++ le_bytes 8 memLength ++ le_bytes 8 align

/-- Two-segment image: a read/execute segment at `0x10` of length `0x20` and a
read/write segment at `0x40` of length `0x10` with `0x8` bytes in the file;
entry at `0x10`. -/
def demoImage : Buffer :=
  demoHeader ELF_MAGIC 0x10 64 0 2 0 0
    ++ demoSegment 1 5 176 0x10 0x20 0x20 16
    ++ demoSegment 1 6 208 0x40 0x8 0x10 16
    ++ List.replicate 0x20 0x90 ++ List.replicate 0x8 0x2a

/-- As `demoImage`, but the second segment declares `memLength < fileLength`. -/
def demoBadSegmentImage : Buffer :=
  demoHeader ELF_MAGIC 0x10 64 0 2 0 0
    ++ demoSegment 1 5 176 0x10 0x20 0x20 16
    ++ demoSegment 1 6 208 0x40 0x8 0x4 16
    ++ List.replicate 0x20 0x90 ++ List.replicate 0x8 0x2a

/-- A buffer whose first four bytes are the signature bytes in reverse order
and which declares byte order 2. -/
def demoSwappedMagicImage : Buffer :=
  [0x46, 0x4c, 0x45, 0x7f, 2, 2, 1, 0, 0] ++ List.replicate 55 0

/-- An address space holding one mapping made before the load. -/
def demoContext : AddressSpace :=
  ⟨[⟨0x200, 0x210, ⟨true, false, false⟩, List.replicate 16 7⟩]⟩

/-- C3: the packed `elf_program_header` has the members type, flags, offset,
vaddr, paddr, fileLength, memLength, align, in this order, of 4, 4, 8, 8, 8, 8,
8, 8 bytes, at byte offsets 0, 4, 8, 16, 24, 32, 40, 48; the record is 56 bytes
long, which is the sum of the member sizes (no padding). -/
theorem program_header_layout :
    fieldNames elf_program_header
        = ["type", "flags", "offset", "vaddr", "paddr", "fileLength", "memLength", "align"]
      ∧ fieldSizes elf_program_header = [4, 4, 8, 8, 8, 8, 8, 8]
      ∧ packedOffsets elf_program_header = [0, 4, 8, 16, 24, 32, 40, 48]
      ∧ packedSize elf_program_header = 56
      ∧ packedSize elf_program_header = (fieldSizes elf_program_header).sum := by
  decide

/-- C4: with `ptr_t` 8 bytes wide, the packed `elf_file_header` is 64 bytes
long: the identification block (4-byte magic, five 1-byte members, 7 padding
bytes) ends at byte 16, then type is at 16, machine at 18, version at 20,
entrypoint at 24, programHeaderOffset at 32, sectionHeaderOffset at 40, flags
at 48, and the six 2-byte members at 52, 54, 56, 58, 60, 62. -/
theorem file_header_layout :
    CType.width .ptr_t = 8
      ∧ fieldNames elf_file_header
        = ["ident_magic", "ident_arch", "ident_byteOrder", "ident_version", "ident_abi",
           "ident_abi_version", "_ident_padding", "type", "machine", "version", "entrypoint",
           "programHeaderOffset", "sectionHeaderOffset", "flags", "headerSize",
           "programHeaderEntrySize", "programHeaderCount", "sectionHeaderEntrySize",
           "sectionHeaderCount", "sectionHeaderSectionNameIndex"]
      ∧ fieldSizes elf_file_header
        = [4, 1, 1, 1, 1, 1, 7, 2, 2, 4, 8, 8, 8, 4, 2, 2, 2, 2, 2, 2]
      ∧ packedOffsets elf_file_header
        = [0, 4, 5, 6, 7, 8, 9, 16, 18, 20, 24, 32, 40, 48, 52, 54, 56, 58, 60, 62]
      ∧ packedSize (elf_file_header.take 7) = 16
      ∧ packedSize elf_file_header = 64 := by
  decide

/-- C5: with `ptr_t` 8 bytes wide, the packed `elf_section_header` has the
members name, type, flags, addr, offset, size, link, info, addralign, entrySize,
in this order, of 4, 4, 8, 8, 8, 8, 4, 4, 8, 8 bytes, at byte offsets 0, 4, 8,
16, 24, 32, 40, 44, 48, 56; the record is 64 bytes long. -/
theorem section_header_layout :
    CType.width .ptr_t = 8
      ∧ fieldNames elf_section_header
        = ["name", "type", "flags", "addr", "offset", "size", "link", "info", "addralign",
           "entrySize"]
      ∧ fieldSizes elf_section_header = [4, 4, 8, 8, 8, 8, 4, 4, 8, 8]
      ∧ packedOffsets elf_section_header = [0, 4, 8, 16, 24, 32, 40, 44, 48, 56]
      ∧ packedSize elf_section_header = 64 := by
  decide

/-- C9: for each of `elf_file_header`, `elf_program_header`,
`elf_section_header` and `elf_symbol` (with `ptr_t` 8 bytes wide) every member
starts at a multiple of its scalar width, the packed size (64, 56, 64, 24) is a
multiple of 8, and offsets and size under natural alignment equal the packed
ones: the packed attribute removes no padding. -/
theorem packed_equals_natural_layout :
    CType.width .ptr_t = 8
      ∧ (selfAligned elf_file_header = true ∧ packedSize elf_file_header = 64
          ∧ packedSize elf_file_header % 8 = 0
          ∧ naturalOffsets elf_file_header = packedOffsets elf_file_header
          ∧ naturalSize elf_file_header = packedSize elf_file_header)
      ∧ (selfAligned elf_program_header = true ∧ packedSize elf_program_header = 56
          ∧ packedSize elf_program_header % 8 = 0
          ∧ naturalOffsets elf_program_header = packedOffsets elf_program_header
          ∧ naturalSize elf_program_header = packedSize elf_program_header)
      ∧ (selfAligned elf_section_header = true ∧ packedSize elf_section_header = 64
          ∧ packedSize elf_section_header % 8 = 0
          ∧ naturalOffsets elf_section_header = packedOffsets elf_section_header
          ∧ naturalSize elf_section_header = packedSize elf_section_header)
      ∧ (selfAligned elf_symbol = true ∧ packedSize elf_symbol = 24
          ∧ packedSize elf_symbol % 8 = 0
          ∧ naturalOffsets elf_symbol = packedOffsets elf_symbol
          ∧ naturalSize elf_symbol = packedSize elf_symbol) := by
  decide

/-- C10: the `TestUtils` record generated from `TEST_FUNCTIONS` has 20
members, one per listed pair, with pairwise distinct names of the form
comparison, underscore, type; `eq` and `ne` are listed for size_t, int, uint8_t,
uint64_t, ptr_t and bool, and `lt` and `gt` exactly for size_t, int, uint8_t and
uint64_t. -/
theorem test_utils_table :
    TEST_FUNCTIONS.length = 20
      ∧ TestUtils.length = 20
      ∧ TestUtils.Nodup
      ∧ TestUtils
        = ["eq_size_t", "ne_size_t", "lt_size_t", "gt_size_t",
           "eq_int", "ne_int", "lt_int", "gt_int",
           "eq_uint8_t", "ne_uint8_t", "lt_uint8_t", "gt_uint8_t",
           "eq_uint64_t", "ne_uint64_t", "lt_uint64_t", "gt_uint64_t",
           "eq_ptr_t", "ne_ptr_t", "eq_bool", "ne_bool"]
      ∧ (∀ p ∈ TEST_FUNCTIONS, p.2 ∈ ["eq", "ne", "lt", "gt"])
      ∧ typesWith "eq" = ["size_t", "int", "uint8_t", "uint64_t", "ptr_t", "bool"]
      ∧ typesWith "ne" = ["size_t", "int", "uint8_t", "uint64_t", "ptr_t", "bool"]
      ∧ typesWith "lt" = ["size_t", "int", "uint8_t", "uint64_t"]
      ∧ typesWith "gt" = ["size_t", "int", "uint8_t", "uint64_t"] := by
  decide

/-- C8: `ELF_MAGIC` is `0x464c457f`, the value of the signature bytes 0x7F,
0x45, 0x4C, 0x46 read in little-endian order; four bytes read little-endian
give `ELF_MAGIC` only if they are exactly these bytes in this order; read in
big-endian order the signature gives `0x7f454c46`, which is not `ELF_MAGIC`. -/
theorem elf_magic_signature (b0 b1 b2 b3 : Nat)
    (h0 : b0 < 256) (h1 : b1 < 256) (h2 : b2 < 256) (h3 : b3 < 256) :
    ELF_MAGIC = 0x464c457f
      ∧ le_value [0x7f, 0x45, 0x4c, 0x46] = ELF_MAGIC
      ∧ (le_value [b0, b1, b2, b3] = ELF_MAGIC → [b0, b1, b2, b3] = [0x7f, 0x45, 0x4c, 0x46])
      ∧ be_value [0x7f, 0x45, 0x4c, 0x46] = 0x7f454c46
      ∧ be_value [0x7f, 0x45, 0x4c, 0x46] ≠ ELF_MAGIC := by
  refine ⟨rfl, rfl, ?_, rfl, by decide⟩
  intro h
  simp only [le_value, ELF_MAGIC] at h
  have e0 : b0 = 0x7f := by omega
  have e1 : b1 = 0x45 := by omega
  have e2 : b2 = 0x4c := by omega
  have e3 : b3 = 0x46 := by omega
  subst e0 e1 e2 e3
  rfl

/-- Witness for C8 at the signature bytes themselves. -/
theorem elf_magic_signature_witness :
    ELF_MAGIC = 0x464c457f
      ∧ le_value [0x7f, 0x45, 0x4c, 0x46] = ELF_MAGIC
      ∧ (le_value [0x7f, 0x45, 0x4c, 0x46] = ELF_MAGIC
          → [0x7f, 0x45, 0x4c, 0x46] = [0x7f, 0x45, 0x4c, 0x46])
      ∧ be_value [0x7f, 0x45, 0x4c, 0x46] = 0x7f454c46
      ∧ be_value [0x7f, 0x45, 0x4c, 0x46] ≠ ELF_MAGIC :=
  elf_magic_signature 0x7f 0x45 0x4c 0x46 (by decide) (by decide) (by decide) (by decide)

theorem validate_header_ok {cfg : Target} {buf : Buffer} {hdr : FileHeader}
    (h : validate_header cfg buf = .ok hdr) :
    truncated (read_uint 4 .little buf 0) = .ok ELF_MAGIC
      ∧ field cfg buf 24 8 = .ok hdr.entrypoint := by
  unfold validate_header at h
  simp only [bind, Except.bind, pure, Except.pure] at h
  repeat' (split at h <;> try (first | contradiction | (simp at h; done)))
  injection h with h
  subst h
  simp_all

theorem validate_header_bad_magic {cfg : Target} {buf : Buffer} {m : Nat}
    (h : truncated (read_uint 4 .little buf 0) = .ok m) (hm : m ≠ ELF_MAGIC) :
    validate_header cfg buf = .error .BadMagic := by
  unfold validate_header
  simp only [bind, Except.bind, pure, Except.pure, h]
  simp [hm, throw, throwThe, MonadExceptOf.throw]

theorem pageDown_le (cfg : Target) (v : Nat) : pageDown cfg v ≤ v :=
  Nat.div_mul_le_self v cfg.pageSize

theorem le_pageUp (cfg : Target) (v : Nat) : v ≤ pageUp cfg v := by
  unfold pageUp
  have hp := cfg.pageSize_pos
  have h := Nat.lt_mul_div_succ (v + cfg.pageSize - 1) hp
  rw [Nat.mul_add, Nat.mul_one, Nat.mul_comm] at h
  omega

theorem read_bytes_length {buf : Buffer} {off w : Nat} {bs : List Nat}
    (h : read_bytes buf off w = .ok bs) : bs.length = w := by
  unfold read_bytes at h
  split at h
  · injection h with h
    subst h
    simp only [List.length_take, List.length_drop]
    omega
  · cases h

theorem writeByte_head (m : Mapping) (rest : List Mapping) (a b : Nat)
    (h1 : m.lo ≤ a) (h2 : a < m.hi) :
    writeByte (m :: rest) a b = ⟨m.lo, m.hi, m.perms, m.data.set (a - m.lo) b⟩ :: rest := by
  simp [writeByte, h1, h2]

theorem writeBytes_head (bytes : List Nat) :
    ∀ (a : Nat) (m : Mapping) (rest : List Mapping), m.lo ≤ a → a + bytes.length ≤ m.hi →
      ∃ d, writeBytes (m :: rest) a bytes = ⟨m.lo, m.hi, m.perms, d⟩ :: rest := by
  induction bytes with
  | nil => intro a m rest _ _; exact ⟨m.data, rfl⟩
  | cons b bs ih =>
    intro a m rest h1 h2
    simp only [List.length_cons] at h2
    simp only [writeBytes]
    rw [writeByte_head m rest a b h1 (by omega)]
    exact ih (a + 1) ⟨m.lo, m.hi, m.perms, m.data.set (a - m.lo) b⟩ rest
      (Nat.le_succ_of_le h1) (by simp only; omega)

theorem map_ok {ctx ctx1 : AddressSpace} {lo hi : Nat} {p : Perms}
    (h : ctx.map lo hi p = .ok ctx1) :
    ctx1.mappings = ⟨lo, hi, p, List.replicate (hi - lo) 0⟩ :: ctx.mappings := by
  unfold AddressSpace.map at h
  split at h
  · cases h
  · injection h with h
    subst h
    rfl

theorem inv_log {base : AddressSpace} {st : LoadState} (c : Call)
    (hc1 : ∀ lo hi p, c ≠ Call.map lo hi p true) (hc2 : ∀ lo hi b, c ≠ Call.unmap lo hi b)
    (h : LoadInv base st) : LoadInv base { st with calls := c :: st.calls } := by
  obtain ⟨news, h1, h2, h3, h4⟩ := h
  refine ⟨news, h1, h2, ?_, ?_⟩
  · intro lo hi p
    simp only [List.mem_cons]
    rw [← h3 lo hi p]
    constructor
    · rintro (h | h)
      · exact absurd h.symm (hc1 lo hi p)
      · exact h
    · intro h; exact Or.inr h
  · intro lo hi b
    simp only [List.mem_cons, not_or]
    exact ⟨fun h => hc2 lo hi b h.symm, h4 lo hi b⟩

theorem inv_map {base : AddressSpace} {st : LoadState} {ctx1 : AddressSpace} (r : MappedRange)
    (h : LoadInv base st) (hm : st.ctx.map r.lo r.hi r.perms = .ok ctx1) :
    LoadInv base
      { ctx := ctx1, mapped := r :: st.mapped, calls := .map r.lo r.hi r.perms true :: st.calls } := by
  obtain ⟨news, h1, h2, h3, h4⟩ := h
  refine ⟨⟨r.lo, r.hi, r.perms, List.replicate (r.hi - r.lo) 0⟩ :: news, ?_, ?_, ?_, ?_⟩
  · simp only [map_ok hm, h1, List.cons_append]
  · simp only [List.map_cons, h2, Mapping.range]
  · intro lo hi p
    simp only [List.mem_cons]
    rw [h3 lo hi p]
    constructor
    · rintro (h | h)
      · left; injection h with a b c; subst a b c; rfl
      · exact Or.inr h
    · rintro (h | h)
      · left; subst h; rfl
      · exact Or.inr h
  · intro lo hi b
    simp only [List.mem_cons, not_or]
    exact ⟨fun h => (by cases h), h4 lo hi b⟩

theorem inv_write {base : AddressSpace} {st : LoadState} (r : MappedRange) (a : Nat)
    (bytes : List Nat) (h : LoadInv base st) (hr : ∃ rs, st.mapped = r :: rs)
    (h1 : r.lo ≤ a) (h2 : a + bytes.length ≤ r.hi) :
    LoadInv base { st with ctx := ⟨writeBytes st.ctx.mappings a bytes⟩ } := by
  obtain ⟨news, e1, e2, e3, e4⟩ := h
  obtain ⟨rs, hrs⟩ := hr
  cases news with
  | nil => rw [hrs] at e2; cases e2
  | cons m ms =>
    rw [hrs] at e2
    simp only [List.map_cons, List.cons.injEq] at e2
    obtain ⟨em, ems⟩ := e2
    have hlo : m.lo = r.lo := by rw [← em]; rfl
    have hhi : m.hi = r.hi := by rw [← em]; rfl
    obtain ⟨d, hd⟩ := writeBytes_head bytes a m (ms ++ base.mappings) (by omega) (by omega)
    refine ⟨⟨m.lo, m.hi, m.perms, d⟩ :: ms, ?_, ?_, e3, e4⟩
    · simp only [e1, List.cons_append, hd]
    · simp only [List.map_cons, hrs, ems]
      rw [← em]; rfl

theorem map_segment_inv (cfg : Target) (buf : Buffer) (hdr : FileHeader) (i : Nat)
    {base : AddressSpace} {st : LoadState} (h : LoadInv base st) :
    LoadInv base (map_segment cfg buf hdr i st).state := by
  unfold map_segment
  split
  · exact h
  · rename_i ph _
    split
    · exact h
    · split
      · exact h
      · split
        · exact h
        · rename_i hlen _
          simp only []
          split
          · exact h
          · split
            · exact inv_log _ (fun _ _ _ hc => by cases hc) (fun _ _ _ hc => by cases hc) h
            · rename_i ctx1 hmap
              have hinv := inv_map (segmentRange cfg ph) h hmap
              split
              · exact hinv
              · rename_i bytes hbytes
                simp only [Outcome.state, AddressSpace.write_bytes, AddressSpace.zero_bytes]
                have hlenb : bytes.length = ph.fileLength := by
                  unfold truncated at hbytes
                  split at hbytes
                  · injection hbytes with hb; subst hb
                    exact read_bytes_length (by assumption)
                  · cases hbytes
                have hlo : (segmentRange cfg ph).lo ≤ ph.vaddr := pageDown_le cfg ph.vaddr
                have hhi : ph.vaddr + ph.memLength ≤ (segmentRange cfg ph).hi :=
                  le_pageUp cfg (ph.vaddr + ph.memLength)
                have hw := inv_write (segmentRange cfg ph) ph.vaddr bytes hinv ⟨_, rfl⟩ hlo
                  (by omega)
                have hz := inv_write (segmentRange cfg ph) (ph.vaddr + ph.fileLength)
                  (List.replicate (ph.memLength - ph.fileLength) 0) hw ⟨_, rfl⟩ (by omega)
                  (by simp only [List.length_replicate]; omega)
                have hl1 := inv_log (Call.write_bytes ph.vaddr bytes)
                  (fun _ _ _ hc => by cases hc) (fun _ _ _ hc => by cases hc) hz
                exact inv_log (Call.zero_bytes (ph.vaddr + ph.fileLength)
                  (ph.memLength - ph.fileLength))
                  (fun _ _ _ hc => by cases hc) (fun _ _ _ hc => by cases hc) hl1

theorem map_segments_inv (cfg : Target) (buf : Buffer) (hdr : FileHeader) (n : Nat) :
    ∀ (i : Nat) {base : AddressSpace} {st : LoadState}, LoadInv base st →
      LoadInv base (map_segments cfg buf hdr n i st).state := by
  induction n with
  | zero => intro i base st h; exact h
  | succ n ih =>
    intro i base st h
    have h1 := map_segment_inv cfg buf hdr i h
    simp only [map_segments]
    split
    · rename_i e st1 heq
      rw [heq] at h1
      exact h1
    · rename_i st1 heq
      rw [heq] at h1
      exact ih (i + 1) h1

theorem place_stack_inv (cfg : Target) (sb : Nat) {base : AddressSpace} {st : LoadState}
    (h : LoadInv base st) : LoadInv base (place_stack cfg sb st).state := by
  unfold place_stack
  split
  · exact inv_log _ (fun _ _ _ hc => by cases hc) (fun _ _ _ hc => by cases hc) h
  · rename_i ctx1 hmap
    exact inv_map ⟨sb, sb + cfg.stackSize, stackPerms⟩ h hmap

theorem removeRange_head (m : Mapping) (rest : List Mapping) :
    removeRange (m :: rest) m.range.lo m.range.hi = some rest := by
  simp [removeRange, Mapping.range]

theorem rollback_spec (news : List Mapping) (bms : List Mapping) :
    ∀ calls : List Call,
      (rollback (news.map Mapping.range) ⟨news ++ bms⟩ calls).1 = ⟨bms⟩
      ∧ (∀ c ∈ calls, c ∈ (rollback (news.map Mapping.range) ⟨news ++ bms⟩ calls).2)
      ∧ (∀ r ∈ news.map Mapping.range,
          Call.unmap r.lo r.hi true ∈ (rollback (news.map Mapping.range) ⟨news ++ bms⟩ calls).2)
      ∧ (∀ lo hi p b,
          Call.map lo hi p b ∈ (rollback (news.map Mapping.range) ⟨news ++ bms⟩ calls).2 →
          Call.map lo hi p b ∈ calls) := by
  induction news with
  | nil =>
    intro calls
    refine ⟨rfl, fun c hc => hc, ?_, fun _ _ _ _ h => h⟩
    intro r hr
    cases hr
  | cons m ms ih =>
    intro calls
    have hstep : rollback ((m :: ms).map Mapping.range) ⟨(m :: ms) ++ bms⟩ calls
        = rollback (ms.map Mapping.range) ⟨ms ++ bms⟩
            (Call.unmap m.range.lo m.range.hi true :: calls) := by
      simp only [List.map_cons, rollback, AddressSpace.unmap, List.cons_append, removeRange_head]
    rw [hstep]
    obtain ⟨h1, h2, h3, h4⟩ := ih (Call.unmap m.range.lo m.range.hi true :: calls)
    refine ⟨h1, fun c hc => h2 c (List.mem_cons_of_mem _ hc), ?_, ?_⟩
    · intro r hr
      simp only [List.map_cons, List.mem_cons] at hr
      rcases hr with hr | hr
      · subst hr
        exact h2 _ (List.mem_cons_self _ _)
      · exact h3 r hr
    · intro lo hi p b hc
      have := h4 lo hi p b hc
      simp only [List.mem_cons] at this
      rcases this with h | h
      · cases h
      · exact h

theorem abort_spec {base : AddressSpace} {st : LoadState} (e : LoadError) (h : LoadInv base st) :
    (abort e st).ctx = base
      ∧ ∀ lo hi p, Call.map lo hi p true ∈ (abort e st).calls →
          Call.unmap lo hi true ∈ (abort e st).calls := by
  obtain ⟨news, h1, h2, h3, h4⟩ := h
  have hctx : st.ctx = ⟨news ++ base.mappings⟩ := by
    cases hc : st.ctx
    rw [hc] at h1
    simp only at h1
    rw [h1]
  obtain ⟨r1, r2, r3, r4⟩ := rollback_spec news base.mappings st.calls
  simp only [abort]
  rw [← h2, hctx]
  refine ⟨r1, ?_⟩
  intro lo hi p hc
  have hin := r4 lo hi p true hc
  have hm := (h3 lo hi p).1 hin
  rw [← h2] at hm
  exact r3 ⟨lo, hi, p⟩ hm

theorem init_inv (ctx : AddressSpace) : LoadInv ctx ⟨ctx, [], []⟩ :=
  ⟨[], rfl, rfl, fun _ _ _ => ⟨fun h => (by cases h), fun h => (by cases h)⟩,
    fun _ _ _ h => (by cases h)⟩

/-- C6: whenever `load_elf` fails, whatever the error, the address-space
context after the call equals the context before it, and every mapping call
that succeeded during the call is matched by a successful unmapping call of
the same range. -/
theorem load_elf_failure_restores_context (cfg : Target) (buf : Buffer) (ctx : AddressSpace)
    (e : LoadError) (h : (load_elf cfg buf ctx).result = .error e) :
    (load_elf cfg buf ctx).ctx = ctx
      ∧ ∀ lo hi p, Call.map lo hi p true ∈ (load_elf cfg buf ctx).calls →
          Call.unmap lo hi true ∈ (load_elf cfg buf ctx).calls := by
  unfold load_elf at h ⊢
  split
  · exact ⟨rfl, fun _ _ _ hc => by cases hc⟩
  · rename_i hdr hv
    simp only [hv] at h
    have hseg := map_segments_inv cfg buf hdr hdr.programHeaderCount 0 (init_inv ctx)
    split
    · rename_i e1 st heq
      rw [heq] at hseg
      exact abort_spec e1 hseg
    · rename_i st heq
      rw [heq] at hseg h
      simp only [Outcome.state] at h hseg
      split
      · rename_i hentry
        simp only [hentry, if_true] at h
        split
        · exact abort_spec _ hseg
        · rename_i sb hsb
          have hst := place_stack_inv cfg sb hseg
          simp only [hsb] at h
          split
          · rename_i e2 st1 heq2
            rw [heq2] at hst
            exact abort_spec e2 hst
          · rename_i st1 heq2
            rw [heq2] at h
            cases h
      · exact abort_spec _ hseg

theorem read_magic (buf : Buffer) (hlen : 4 ≤ buf.length) :
    truncated (read_uint 4 .little buf 0) = .ok (le_value (buf.take 4)) := by
  simp [read_uint, read_bytes, truncated, decode, hlen]

theorem le_value_magic_only (b0 b1 b2 b3 : Nat)
    (h0 : b0 < 256) (h1 : b1 < 256) (h2 : b2 < 256) (h3 : b3 < 256)
    (h : le_value [b0, b1, b2, b3] = ELF_MAGIC) : [b0, b1, b2, b3] = [0x7f, 0x45, 0x4c, 0x46] := by
  simp only [le_value, ELF_MAGIC] at h
  have e0 : b0 = 0x7f := by omega
  have e1 : b1 = 0x45 := by omega
  have e2 : b2 = 0x4c := by omega
  have e3 : b3 = 0x46 := by omega
  subst e0 e1 e2 e3
  rfl

theorem magic_value_differs (bs : List Nat) (hlen : bs.length = 4) (hbytes : ∀ b ∈ bs, b < 256)
    (hsig : bs ≠ [0x7f, 0x45, 0x4c, 0x46]) : le_value bs ≠ ELF_MAGIC := by
  match bs, hlen with
  | [b0, b1, b2, b3], _ =>
    intro h
    exact hsig (le_value_magic_only b0 b1 b2 b3 (hbytes b0 (by simp)) (hbytes b1 (by simp))
      (hbytes b2 (by simp)) (hbytes b3 (by simp)) h)

/-- C7: for every buffer whose first four bytes differ from the ELF signature
bytes 0x7F, 0x45, 0x4C, 0x46, that is, whose `ident_magic` member differs from
`ELF_MAGIC`, `load_elf` returns `BadMagic`, leaves the context unchanged and
makes no call at all through the mapping interface, in particular no call that
creates a mapping. -/
theorem load_elf_bad_magic (cfg : Target) (buf : Buffer) (ctx : AddressSpace)
    (hlen : 4 ≤ buf.length) (hbytes : ∀ b ∈ buf.take 4, b < 256)
    (hsig : buf.take 4 ≠ [0x7f, 0x45, 0x4c, 0x46]) :
    load_elf cfg buf ctx = { result := .error .BadMagic, ctx := ctx, calls := [] }
      ∧ ∀ lo hi p b, Call.map lo hi p b ∉ (load_elf cfg buf ctx).calls := by
  have hl : (buf.take 4).length = 4 := by
    simp only [List.length_take]
    omega
  have hv := @validate_header_bad_magic cfg buf _ (read_magic buf hlen)
    (magic_value_differs (buf.take 4) hl hbytes hsig)
  have heq : load_elf cfg buf ctx = { result := .error .BadMagic, ctx := ctx, calls := [] } := by
    simp only [load_elf, hv]
  refine ⟨heq, ?_⟩
  intro lo hi p b hc
  rw [heq] at hc
  cases hc

theorem segInv_mono {cfg : Target} {buf : Buffer} {hdr : FileHeader} {i j : Nat} {st : LoadState}
    (hij : i ≤ j) (h : SegInv cfg buf hdr i st) : SegInv cfg buf hdr j st := by
  intro r hr
  obtain ⟨k, ph, hk, h1, h2, h3⟩ := h r hr
  exact ⟨k, ph, Nat.lt_of_lt_of_le hk hij, h1, h2, h3⟩

theorem map_segment_seg (cfg : Target) (buf : Buffer) (hdr : FileHeader) (i : Nat)
    {st : LoadState} (h : SegInv cfg buf hdr i st) :
    SegInv cfg buf hdr (i + 1) (map_segment cfg buf hdr i st).state := by
  have h0 : SegInv cfg buf hdr (i + 1) st := segInv_mono (Nat.le_succ i) h
  unfold map_segment
  split
  · exact h0
  · rename_i ph hph
    split
    · exact h0
    · rename_i htype
      have htype1 : ph.type = cfg.PT_LOAD := by
        by_contra hne
        exact htype hne
      have hcons : ∀ r ∈ segmentRange cfg ph :: st.mapped, ∃ j ph1, j < i + 1
          ∧ read_program_header cfg buf hdr j = .ok ph1 ∧ ph1.type = cfg.PT_LOAD
          ∧ r = segmentRange cfg ph1 := by
        intro r hr
        simp only [List.mem_cons] at hr
        rcases hr with hr | hr
        · exact ⟨i, ph, Nat.lt_succ_self i, hph, htype1, hr⟩
        · exact h0 r hr
      split
      · exact h0
      · split
        · exact h0
        · simp only []
          split
          · exact h0
          · split
            · exact h0
            · split
              · exact hcons
              · exact hcons

theorem map_segments_seg (cfg : Target) (buf : Buffer) (hdr : FileHeader) (n : Nat) :
    ∀ (i : Nat) {st : LoadState}, SegInv cfg buf hdr i st →
      SegInv cfg buf hdr (i + n) (map_segments cfg buf hdr n i st).state := by
  induction n with
  | zero => intro i st h; exact h
  | succ n ih =>
    intro i st h
    have h1 := map_segment_seg cfg buf hdr i h
    simp only [map_segments]
    split
    · rename_i e st1 heq
      rw [heq] at h1
      exact segInv_mono (by omega) h1
    · rename_i st1 heq
      rw [heq] at h1
      have := ih (i + 1) h1
      rw [Nat.add_assoc, Nat.add_comm 1 n] at this
      exact this

theorem entry_ok_elim {entry : Nat} {mapped : List MappedRange}
    (h : entry_ok entry mapped = true) :
    ∃ r ∈ mapped, r.perms.exec = true ∧ r.lo ≤ entry ∧ entry < r.hi := by
  simp only [entry_ok, List.any_eq_true, Bool.and_eq_true, decide_eq_true_eq] at h
  obtain ⟨r, hr, ⟨h1, h2⟩, h3⟩ := h
  exact ⟨r, hr, h1, h2, h3⟩

theorem place_stack_keeps (cfg : Target) (sb : Nat) (st : LoadState) :
    (∀ r ∈ st.mapped, r ∈ (place_stack cfg sb st).state.mapped) := by
  intro r hr
  unfold place_stack
  split
  · exact hr
  · exact List.mem_cons_of_mem _ hr

/-- C1: whenever `load_elf` accepts an image, the entry address it returns is
the value of the file header's `entrypoint` member (read at offset 24), and it
lies in the page-aligned range of a loadable program-header entry whose
permissions include execute, for which a successful mapping call was made and
whose mapping is present in the resulting context. -/
theorem load_elf_entrypoint (cfg : Target) (buf : Buffer) (ctx : AddressSpace) (entry sp : Nat)
    (h : (load_elf cfg buf ctx).result = .ok (entry, sp)) :
    ∃ hdr, validate_header cfg buf = .ok hdr ∧ entry = hdr.entrypoint
      ∧ field cfg buf 24 8 = .ok entry
      ∧ ∃ i ph, i < hdr.programHeaderCount ∧ read_program_header cfg buf hdr i = .ok ph
        ∧ ph.type = cfg.PT_LOAD
        ∧ (segmentRange cfg ph).perms.exec = true
        ∧ (segmentRange cfg ph).lo ≤ entry ∧ entry < (segmentRange cfg ph).hi
        ∧ Call.map (segmentRange cfg ph).lo (segmentRange cfg ph).hi (segmentRange cfg ph).perms
            true ∈ (load_elf cfg buf ctx).calls
        ∧ ∃ m ∈ (load_elf cfg buf ctx).ctx.mappings, m.range = segmentRange cfg ph := by
  unfold load_elf at h ⊢
  split
  · rename_i e hv
    simp only [hv] at h
    cases h
  · rename_i hdr hv
    simp only [hv] at h
    have hinv := map_segments_inv cfg buf hdr hdr.programHeaderCount 0 (init_inv ctx)
    have hseg := @map_segments_seg cfg buf hdr hdr.programHeaderCount 0 ⟨ctx, [], []⟩
      (fun r hr => (by cases hr))
    split
    · rename_i e1 st heq
      rw [heq] at h
      cases h
    · rename_i st heq
      rw [heq] at hinv hseg h
      simp only [Outcome.state, Nat.zero_add] at h hinv hseg
      split
      · rename_i hentry
        simp only [hentry, if_true] at h
        split
        · rename_i e2 hsb
          simp only [hsb] at h
          cases h
        · rename_i sb hsb
          simp only [hsb] at h
          have hst := place_stack_inv cfg sb hinv
          have hkeep := place_stack_keeps cfg sb st
          split
          · rename_i e2 st1 heq2
            rw [heq2] at h
            cases h
          · rename_i st1 heq2
            rw [heq2] at h hst hkeep
            simp only [Outcome.state] at hst hkeep
            injection h with h
            injection h with he hs
            subst he
            obtain ⟨r, hr, hx, hlo, hhi⟩ := entry_ok_elim hentry
            obtain ⟨j, ph, hj, hph, hty, hrange⟩ := hseg r hr
            subst hrange
            obtain ⟨news, e1, e2, e3, e4⟩ := hst
            have hr1 := hkeep _ hr
            refine ⟨hdr, hv, rfl, (validate_header_ok hv).2, j, ph, hj, hph, hty, hx, hlo, hhi,
              (e3 _ _ _).2 hr1, ?_⟩
            rw [← e2, List.mem_map] at hr1
            obtain ⟨m, hm, hmr⟩ := hr1
            exact ⟨m, by simp only [e1, List.mem_append]; exact Or.inl hm, hmr⟩
      · rename_i hentry
        simp only [hentry] at h
        cases h

/-- Witness for C1: `demoImage` loads with entry address `0x10`. -/
theorem load_elf_entrypoint_witness :
    (load_elf demoTarget demoImage demoContext).result = .ok (0x10, 0x10)
      ∧ ∃ hdr, validate_header demoTarget demoImage = .ok hdr ∧ 0x10 = hdr.entrypoint
        ∧ field demoTarget demoImage 24 8 = .ok 0x10
        ∧ ∃ i ph, i < hdr.programHeaderCount
          ∧ read_program_header demoTarget demoImage hdr i = .ok ph
          ∧ ph.type = demoTarget.PT_LOAD
          ∧ (segmentRange demoTarget ph).perms.exec = true
          ∧ (segmentRange demoTarget ph).lo ≤ 0x10 ∧ 0x10 < (segmentRange demoTarget ph).hi
          ∧ Call.map (segmentRange demoTarget ph).lo (segmentRange demoTarget ph).hi
              (segmentRange demoTarget ph).perms true
              ∈ (load_elf demoTarget demoImage demoContext).calls
          ∧ ∃ m ∈ (load_elf demoTarget demoImage demoContext).ctx.mappings,
              m.range = segmentRange demoTarget ph :=
  ⟨by decide, load_elf_entrypoint demoTarget demoImage demoContext 0x10 0x10 (by decide)⟩

/-- Witness for C6: `demoBadSegmentImage` fails with `InvalidSegment` at its
second segment, after the first one was mapped; the context is restored. -/
theorem load_elf_failure_restores_context_witness :
    (load_elf demoTarget demoBadSegmentImage demoContext).result = .error .InvalidSegment
      ∧ Call.map 16 48 ⟨true, false, true⟩ true
          ∈ (load_elf demoTarget demoBadSegmentImage demoContext).calls
      ∧ (load_elf demoTarget demoBadSegmentImage demoContext).ctx = demoContext
      ∧ ∀ lo hi p,
          Call.map lo hi p true ∈ (load_elf demoTarget demoBadSegmentImage demoContext).calls →
          Call.unmap lo hi true ∈ (load_elf demoTarget demoBadSegmentImage demoContext).calls :=
  ⟨by decide, by decide,
    load_elf_failure_restores_context demoTarget demoBadSegmentImage demoContext .InvalidSegment
      (by decide)⟩

/-- Witness for C7: `demoSwappedMagicImage`, whose first four bytes are the
signature bytes in reverse order, is rejected with `BadMagic`. -/
theorem load_elf_bad_magic_witness :
    load_elf demoTarget demoSwappedMagicImage demoContext
        = { result := .error .BadMagic, ctx := demoContext, calls := [] }
      ∧ ∀ lo hi p b,
          Call.map lo hi p b ∉ (load_elf demoTarget demoSwappedMagicImage demoContext).calls :=
  load_elf_bad_magic demoTarget demoSwappedMagicImage demoContext (by decide) (by decide)
    (by decide)

end Elf
